import Mathlib

set_option maxHeartbeats 1000000

/-!
Shallow embedding of the novelty-detection guardrail and feed update of
the SocialOpen daily-post generator (src/app.js), together with proofs of
the specified properties.

Texts are modelled as `List Char` (JS strings over the ASCII range used by
the program); tokens are `List Char` as well.
-/

namespace SocialOpen

abbrev Token := List Char

/-- The fixed stop-word set `STOP` of the source. -/
def STOP : List Token :=
  (["the", "a", "and", "or", "but", "if", "then", "to", "of", "in", "on",
    "for", "at", "is", "are", "be", "as", "it", "that", "this", "with",
    "by", "an", "from", "we", "you", "i"]).map String.toList

/-- JS regex `\w`: ASCII alphanumeric or underscore. -/
def isWordChar (c : Char) : Bool :=
  c.isAlphanum || c = '_'

/-- The markdown-marker characters removed first by `tokenize`:
the character class `[#*_`+"`"+`~>]` of the source. -/
def markerChars : List Char :=
  ['#', '*', '_', Char.ofNat 96, '~', '>']

/-- The three character-level normalisation passes of `tokenize`:
lowercase, replace markdown markers by spaces, replace remaining
non-word non-space characters by spaces. -/
def clean (s : List Char) : List Char :=
  ((s.map Char.toLower).map (fun c => if markerChars.contains c then ' ' else c)).map
    (fun c => if isWordChar c || c.isWhitespace then c else ' ')

/-- Helper for splitting on whitespace runs (JS `split(/\s+/)` followed by
dropping empty pieces); `acc` holds the current token reversed. -/
def splitWsAux : List Char → List Char → List (List Char)
  | [], acc => if acc.isEmpty then [] else [acc.reverse]
  | c :: cs, acc =>
    if c.isWhitespace then
      if acc.isEmpty then splitWsAux cs [] else acc.reverse :: splitWsAux cs []
    else splitWsAux cs (c :: acc)

/-- Split a character list into its maximal runs of non-whitespace characters. -/
def splitWs (l : List Char) : List (List Char) :=
  splitWsAux l []

/-- `tokenize` from the source: lowercase, strip markers and punctuation,
split on whitespace, drop empty tokens and stop words. -/
def tokenize (text : List Char) : List Token :=
  (splitWs (clean text)).filter (fun t => !t.isEmpty && !decide (t ∈ STOP))

/-- `freq` from the source: term-frequency of a token in a token list. -/
def freq (tokens : List Token) : Token → ℕ :=
  fun t => tokens.count t

/-- The vocabulary union `terms` used by `cosineSim`. -/
def terms (a b : List Token) : Finset Token :=
  a.toFinset ∪ b.toFinset

/-- The dot product accumulated by `cosineSim` over the union vocabulary. -/
def dotProd (a b : List Token) : ℕ :=
  ∑ t in terms a b, freq a t * freq b t

/-- The squared magnitude (`magA` resp. `magB`) accumulated by `cosineSim`
for its first argument over the union vocabulary. -/
def magSq (a b : List Token) : ℕ :=
  ∑ t in terms a b, freq a t ^ 2

/-- `cosineSim` from the source: `dot / (sqrt(magA)*sqrt(magB) || 1)`. -/
noncomputable def cosineSim (a b : List Token) : ℝ :=
  (dotProd a b : ℝ) /
    (if Real.sqrt (magSq a b) * Real.sqrt (magSq b a) = 0 then 1
     else Real.sqrt (magSq a b) * Real.sqrt (magSq b a))

/-- Join tokens with a single space (JS `Array.join(' ')`). -/
def joinSpace (ts : List Token) : List Char :=
  List.intercalate [' '] ts

/-- `ngrams` from the source: all `n`-grams of consecutive tokens, each
joined by a single space, in order. -/
def ngrams (tokens : List Token) (n : ℕ) : List (List Char) :=
  (List.range (tokens.length + 1 - n)).map (fun i => joinSpace ((tokens.drop i).take n))

/-- `jaccard` from the source: `|A ∩ B| / (|A ∪ B| || 1)` on sets of
(joined) n-grams. -/
def jaccard (aSet bSet : Finset (List Char)) : ℚ :=
  ((aSet.filter (fun x => x ∈ bSet)).card : ℚ) /
    (if (aSet ∪ bSet).card = 0 then 1 else ((aSet ∪ bSet).card : ℚ))

/-- Recursion worker for `stripHtml`; the fuel argument only forces
structural recursion and is never exhausted, since every step consumes at
least one character of the remaining input. -/
def stripHtmlAux : ℕ → List Char → List Char
  | _, [] => []
  | 0, s => s
  | fuel + 1, c :: cs =>
    if c = '<' then
      match cs.findIdx? (fun d => d = '>') with
      | some i =>
        if i = 0 then '<' :: stripHtmlAux fuel cs
        else ' ' :: stripHtmlAux fuel (cs.drop (i + 1))
      | none => '<' :: stripHtmlAux fuel cs
    else c :: stripHtmlAux fuel cs

/-- `stripHtml` from the source: replace every match of `<[^>]+>` by a
single space, scanning left to right. -/
def stripHtml (s : List Char) : List Char :=
  stripHtmlAux s.length s

/-- The verdict object returned by `ensureNovelty`. -/
structure Verdict where
  ok : Bool
  hint : Option String
deriving DecidableEq, Repr

/-- The fixed regeneration hint of the source. -/
def noveltyHint : String :=
  "Change structure and examples; focus on a different facet (policy, ROI, or onboarding). Avoid repeating phrases."

section
open Classical

/-- The per-reference loop of `ensureNovelty`: candidate tokens and trigram
set are fixed, references are scanned in order, short-circuiting on the
first failure (`cos > 0.78 || jac > 0.32`). -/
noncomputable def noveltyCheck (candTokens : List Token) (candTri : Finset (List Char)) :
    List (List Char) → Verdict
  | [] => { ok := true, hint := none }
  | html :: rest =>
    let prevTokens := tokenize (stripHtml html)
    if cosineSim candTokens prevTokens > 0.78 ∨
        jaccard candTri ((ngrams prevTokens 3).toFinset) > 0.32 then
      { ok := false, hint := some noveltyHint }
    else noveltyCheck candTokens candTri rest

/-- `ensureNovelty` from the source. -/
noncomputable def ensureNovelty (candidate : List Char) (recentHtmlArray : List (List Char)) :
    Verdict :=
  let candTokens := tokenize (stripHtml candidate)
  let candTri := (ngrams candTokens 3).toFinset
  noveltyCheck candTokens candTri recentHtmlArray

end

/-- The retry loop of `main` starting at a given attempt count: while
`attempts < 5`, generate the next candidate (`gen attempts`); if it passes
the guard it is written, otherwise increment and continue; on exhaustion
the originally generated text is written. -/
noncomputable def retryFrom (refs : List (List Char)) (gen : ℕ → List Char)
    (generated : List Char) (attempts : ℕ) : List Char :=
  if attempts < 5 then
    if (ensureNovelty (gen attempts) refs).ok then gen attempts
    else retryFrom refs gen generated (attempts + 1)
  else generated
termination_by 5 - attempts
decreasing_by omega

/-- The candidate `main` finally writes: `gen 0` is the initial generation,
`gen i` the regeneration of loop iteration `i`. If the initial candidate
passes the guard it is written; otherwise the loop runs from `attempts = 1`. -/
noncomputable def mainSelect (refs : List (List Char)) (gen : ℕ → List Char) : List Char :=
  if (ensureNovelty (gen 0) refs).ok then gen 0
  else retryFrom refs gen (gen 0) 1

/-- A feed entry as written by `writePost` (`id` is the sha1-derived hex
string, `html` the rendered body; their construction is glue outside the
similarity core). -/
structure Post where
  id : String
  date : String
  title : String
  html : String
  hashtags : List String
  sources : List String
  permalink : String
deriving DecidableEq, Repr

/-- The feed update performed by `writePost`:
`[entry, ...posts].slice(0, 365)`. -/
def writePost (posts : List Post) (entry : Post) : List Post :=
  (entry :: posts).take 365

/-! ### Basic facts about the similarity kernels -/

lemma terms_comm (a b : List Token) : terms a b = terms b a :=
  Finset.union_comm _ _

lemma magSq_snd (a b : List Token) : magSq b a = ∑ t in terms a b, freq b t ^ 2 := by
  rw [magSq, terms_comm]

lemma magSq_eq_self_sum (a b : List Token) :
    magSq a b = ∑ t in a.toFinset, freq a t ^ 2 := by
  refine (Finset.sum_subset Finset.subset_union_left ?_).symm
  intro t _ hnot
  have : a.count t = 0 := List.count_eq_zero.mpr (by simpa using hnot)
  simp [freq, this]

lemma magSq_pos (a b : List Token) (h : a ≠ []) : 0 < magSq a b := by
  obtain ⟨t, ht⟩ := List.exists_mem_of_ne_nil a h
  have htf : t ∈ a.toFinset := by simpa using ht
  have h1 : 1 ≤ freq a t := List.count_pos_iff.mpr ht
  have h2 : 1 ≤ freq a t ^ 2 := Nat.one_le_pow _ _ h1
  have h3 : freq a t ^ 2 ≤ ∑ s in a.toFinset, freq a s ^ 2 :=
    Finset.single_le_sum (f := fun s => freq a s ^ 2) (fun _ _ => Nat.zero_le _) htf
  rw [magSq_eq_self_sum]
  omega

lemma magSq_eq_zero_iff (a b : List Token) : magSq a b = 0 ↔ a = [] := by
  constructor
  · intro h
    by_contra hne
    exact absurd h (magSq_pos a b hne).ne'
  · intro h
    subst h
    simp [magSq_eq_self_sum, freq]

/-- Cauchy–Schwarz for the accumulated sums of `cosineSim`. -/
lemma dotProd_sq_le (a b : List Token) :
    dotProd a b ^ 2 ≤ magSq a b * magSq b a := by
  rw [dotProd, magSq, magSq_snd]
  exact Finset.sum_mul_sq_le_sq_mul_sq _ _ _

lemma dotProd_eq_zero_of_mul_eq_zero (a b : List Token)
    (h : magSq a b * magSq b a = 0) : dotProd a b = 0 := by
  have := dotProd_sq_le a b
  rw [h] at this
  simpa using Nat.le_zero.mp this

lemma dotProd_self (a : List Token) : dotProd a a = magSq a a := by
  rw [dotProd, magSq]
  exact Finset.sum_congr rfl (fun t _ => (sq (freq a t)).symm)

lemma sqrt_mul_sqrt_eq_zero_iff (a b : List Token) :
    Real.sqrt (magSq a b) * Real.sqrt (magSq b a) = 0 ↔ magSq a b * magSq b a = 0 := by
  rw [mul_eq_zero, mul_eq_zero]
  rw [Real.sqrt_eq_zero (by positivity), Real.sqrt_eq_zero (by positivity)]
  norm_num

/-! ### Range of `cosineSim` -/

lemma cosineSim_nonneg (a b : List Token) : 0 ≤ cosineSim a b := by
  rw [cosineSim]
  split
  · positivity
  · positivity

lemma cosineSim_le_one (a b : List Token) : cosineSim a b ≤ 1 := by
  rw [cosineSim]
  split
  · rename_i h
    have h0 : magSq a b * magSq b a = 0 := (sqrt_mul_sqrt_eq_zero_iff a b).mp h
    have hd : dotProd a b = 0 := dotProd_eq_zero_of_mul_eq_zero a b h0
    simp [hd]
  · rename_i h
    have hpos : 0 < Real.sqrt (magSq a b) * Real.sqrt (magSq b a) :=
      lt_of_le_of_ne (by positivity) (Ne.symm h)
    rw [div_le_one hpos, ← Real.sqrt_mul (by positivity)]
    rw [show ((magSq a b : ℝ) * (magSq b a : ℝ)) = ((magSq a b * magSq b a : ℕ) : ℝ) by push_cast; ring]
    refine (Real.le_sqrt (by positivity) (by positivity)).mpr ?_
    exact_mod_cast dotProd_sq_le a b

lemma cosineSim_self (a : List Token) (h : a ≠ []) : cosineSim a a = 1 := by
  have hpos : 0 < magSq a a := magSq_pos a a h
  have hsq : Real.sqrt (magSq a a) * Real.sqrt (magSq a a) = (magSq a a : ℝ) :=
    Real.mul_self_sqrt (by positivity)
  have hne : ¬(Real.sqrt (magSq a a) * Real.sqrt (magSq a a) = 0) := by
    rw [hsq]
    exact_mod_cast hpos.ne'
  rw [cosineSim, if_neg hne, hsq, dotProd_self]
  exact div_self (by exact_mod_cast hpos.ne')

lemma cosineSim_zero_left (b : List Token) : cosineSim [] b = 0 := by
  have h0 : magSq ([] : List Token) b = 0 := by simp [magSq_eq_self_sum, freq]
  have hd : dotProd [] b = 0 :=
    dotProd_eq_zero_of_mul_eq_zero _ _ (by rw [h0, zero_mul])
  rw [cosineSim, hd]
  simp

/-- The cosine threshold test of the guard, reduced to a decidable
comparison of natural numbers (`0.78 = 39/50`, squared). -/
lemma cosineSim_gt_iff (a b : List Token) :
    cosineSim a b > 0.78 ↔
      1521 * (magSq a b * magSq b a) < 2500 * dotProd a b ^ 2 := by
  rw [cosineSim]
  split
  · rename_i h
    have h0 : magSq a b * magSq b a = 0 := (sqrt_mul_sqrt_eq_zero_iff a b).mp h
    have hd : dotProd a b = 0 := dotProd_eq_zero_of_mul_eq_zero a b h0
    rw [hd, h0]
    norm_num
  · rename_i h
    have hpos : 0 < Real.sqrt (magSq a b) * Real.sqrt (magSq b a) :=
      lt_of_le_of_ne (by positivity) (Ne.symm h)
    have hprod : magSq a b * magSq b a ≠ 0 := by
      intro h0
      exact h ((sqrt_mul_sqrt_eq_zero_iff a b).mpr h0)
    rw [gt_iff_lt, lt_div_iff₀ hpos, ← Real.sqrt_mul (by positivity)]
    have hP : ((magSq a b : ℝ) * (magSq b a : ℝ)) = ((magSq a b * magSq b a : ℕ) : ℝ) := by
      push_cast
      ring
    rw [hP]
    set P : ℕ := magSq a b * magSq b a with hPdef
    set D : ℕ := dotProd a b with hDdef
    have hs : (0 : ℝ) ≤ Real.sqrt P := Real.sqrt_nonneg _
    have hs2 : Real.sqrt (P : ℝ) ^ 2 = (P : ℝ) := Real.sq_sqrt (by positivity)
    constructor
    · intro hlt
      have hDpos : (0 : ℝ) < D := lt_of_le_of_lt (by positivity) hlt
      have h1 : ((0.78 : ℝ) * Real.sqrt P) ^ 2 < (D : ℝ) ^ 2 :=
        pow_lt_pow_left₀ hlt (by positivity) two_ne_zero
      have h2 : (0.78 : ℝ) ^ 2 * (P : ℝ) < (D : ℝ) ^ 2 := by
        calc (0.78 : ℝ) ^ 2 * (P : ℝ) = ((0.78 : ℝ) * Real.sqrt P) ^ 2 := by
              rw [mul_pow, hs2]
          _ < (D : ℝ) ^ 2 := h1
      have h3 : (1521 : ℝ) * P < 2500 * (D : ℝ) ^ 2 := by nlinarith
      exact_mod_cast h3
    · intro hlt
      have hlt' : (1521 : ℝ) * P < 2500 * (D : ℝ) ^ 2 := by exact_mod_cast hlt
      have h2 : ((0.78 : ℝ) * Real.sqrt P) ^ 2 < (D : ℝ) ^ 2 := by
        rw [mul_pow, hs2]
        nlinarith
      exact lt_of_pow_lt_pow_left₀ 2 (by positivity) h2

/-! ### Range of `jaccard` -/

lemma jaccard_inter (aSet bSet : Finset (List Char)) :
    aSet.filter (fun x => x ∈ bSet) = aSet ∩ bSet :=
  Finset.filter_mem_eq_inter

lemma jaccard_nonneg (aSet bSet : Finset (List Char)) : 0 ≤ jaccard aSet bSet := by
  rw [jaccard]
  split
  · positivity
  · positivity

lemma jaccard_le_one (aSet bSet : Finset (List Char)) : jaccard aSet bSet ≤ 1 := by
  rw [jaccard, jaccard_inter]
  split
  · rename_i h
    have hsub : aSet ∩ bSet ⊆ aSet ∪ bSet :=
      Finset.inter_subset_left.trans Finset.subset_union_left
    have : (aSet ∩ bSet).card = 0 := Nat.le_zero.mp (h ▸ Finset.card_le_card hsub)
    simp [this]
  · rename_i h
    have hpos : 0 < ((aSet ∪ bSet).card : ℚ) := by
      have : 0 < (aSet ∪ bSet).card := Nat.pos_of_ne_zero h
      exact_mod_cast this
    rw [div_le_one hpos]
    have hsub : aSet ∩ bSet ⊆ aSet ∪ bSet :=
      Finset.inter_subset_left.trans Finset.subset_union_left
    exact_mod_cast Finset.card_le_card hsub

lemma jaccard_self (s : Finset (List Char)) (h : s ≠ ∅) : jaccard s s = 1 := by
  rw [jaccard, jaccard_inter, Finset.inter_self, Finset.union_self]
  have hpos : s.card ≠ 0 := by
    simpa [Finset.card_eq_zero] using h
  rw [if_neg hpos]
  exact div_self (by exact_mod_cast hpos)

lemma jaccard_empty : jaccard (∅ : Finset (List Char)) ∅ = 0 := by
  rw [jaccard]
  simp

/-- The Jaccard threshold test of the guard, reduced to a decidable
comparison of natural numbers (`0.32 = 8/25`). -/
lemma jaccard_gt_iff (aSet bSet : Finset (List Char)) :
    jaccard aSet bSet > 0.32 ↔
      8 * (aSet ∪ bSet).card < 25 * (aSet.filter (fun x => x ∈ bSet)).card := by
  rw [jaccard, jaccard_inter]
  have hsub : aSet ∩ bSet ⊆ aSet ∪ bSet :=
    Finset.inter_subset_left.trans Finset.subset_union_left
  split
  · rename_i h
    have hI : (aSet ∩ bSet).card = 0 := Nat.le_zero.mp (h ▸ Finset.card_le_card hsub)
    rw [hI, h]
    norm_num
  · rename_i h
    have hpos : 0 < ((aSet ∪ bSet).card : ℚ) := by
      have : 0 < (aSet ∪ bSet).card := Nat.pos_of_ne_zero h
      exact_mod_cast this
    rw [gt_iff_lt, show (0.32 : ℚ) = 8 / 25 by norm_num, div_lt_div_iff₀ (by norm_num) hpos,
      mul_comm (((aSet ∩ bSet).card : ℚ)) 25]
    constructor
    · intro hlt
      exact_mod_cast hlt
    · intro hlt
      exact_mod_cast hlt

lemma cosineSim_zero_right (a : List Token) : cosineSim a [] = 0 := by
  have h0 : magSq ([] : List Token) a = 0 := by simp [magSq_eq_self_sum, freq]
  have hd : dotProd a [] = 0 :=
    dotProd_eq_zero_of_mul_eq_zero _ _ (by rw [show magSq [] a = 0 from h0, mul_zero])
  rw [cosineSim, hd]
  simp

/-! ### Executable characterization of the guard -/

/-- The rejection condition of the guard against a single reference, as a
proposition (the `cos > 0.78 || jac > 0.32` test of the source). -/
def failCond (cand r : List Char) : Prop :=
  cosineSim (tokenize (stripHtml cand)) (tokenize (stripHtml r)) > 0.78 ∨
    jaccard ((ngrams (tokenize (stripHtml cand)) 3).toFinset)
      ((ngrams (tokenize (stripHtml r)) 3).toFinset) > 0.32

/-- Decidable (executable) form of the per-reference rejection test, with
the cosine comparison replaced by its squared integer equivalent. -/
def failsB (candTokens : List Token) (candTri : Finset (List Char)) (html : List Char) : Bool :=
  let prevTokens := tokenize (stripHtml html)
  decide (1521 * (magSq candTokens prevTokens * magSq prevTokens candTokens) <
      2500 * dotProd candTokens prevTokens ^ 2) ||
    decide (8 * (candTri ∪ (ngrams prevTokens 3).toFinset).card <
      25 * (candTri.filter (fun x => x ∈ (ngrams prevTokens 3).toFinset)).card)

lemma failsB_iff (cand r : List Char) :
    failsB (tokenize (stripHtml cand)) ((ngrams (tokenize (stripHtml cand)) 3).toFinset) r =
      true ↔ failCond cand r := by
  rw [failsB, failCond, cosineSim_gt_iff, jaccard_gt_iff]
  simp

lemma noveltyCheck_eq (candTokens : List Token) (candTri : Finset (List Char))
    (rs : List (List Char)) :
    noveltyCheck candTokens candTri rs =
      if rs.any (failsB candTokens candTri) then
        { ok := false, hint := some noveltyHint }
      else { ok := true, hint := none } := by
  induction rs with
  | nil => simp [noveltyCheck]
  | cons html rest ih =>
    rw [noveltyCheck]
    by_cases hc :
        cosineSim candTokens (tokenize (stripHtml html)) > 0.78 ∨
          jaccard candTri ((ngrams (tokenize (stripHtml html)) 3).toFinset) > 0.32
    · rw [if_pos hc]
      have hb : failsB candTokens candTri html = true := by
        rw [failsB]
        rw [cosineSim_gt_iff, jaccard_gt_iff] at hc
        simpa using hc
      rw [List.any_cons, hb]
      simp
    · rw [if_neg hc]
      have hb : failsB candTokens candTri html = false := by
        rw [failsB]
        rw [cosineSim_gt_iff, jaccard_gt_iff] at hc
        simpa using hc
      rw [List.any_cons, hb, ih]
      simp

lemma ensureNovelty_eq (cand : List Char) (refs : List (List Char)) :
    ensureNovelty cand refs =
      if refs.any (failsB (tokenize (stripHtml cand))
          ((ngrams (tokenize (stripHtml cand)) 3).toFinset)) then
        { ok := false, hint := some noveltyHint }
      else { ok := true, hint := none } :=
  noveltyCheck_eq _ _ _

lemma any_perm {α : Type} {l1 l2 : List α} (h : l1.Perm l2) (p : α → Bool) :
    l1.any p = l2.any p := by
  cases h1 : l1.any p <;> cases h2 : l2.any p
  · rfl
  · exfalso
    rw [List.any_eq_true] at h2
    obtain ⟨x, hx, hpx⟩ := h2
    have hx1 : x ∈ l1 := h.mem_iff.mpr hx
    have : l1.any p = true := List.any_eq_true.mpr ⟨x, hx1, hpx⟩
    rw [h1] at this
    exact Bool.false_ne_true this
  · exfalso
    rw [List.any_eq_true] at h1
    obtain ⟨x, hx, hpx⟩ := h1
    have hx2 : x ∈ l2 := h.mem_iff.mp hx
    have : l2.any p = true := List.any_eq_true.mpr ⟨x, hx2, hpx⟩
    rw [h2] at this
    exact Bool.false_ne_true this
  · rfl

/-! ### The retry loop -/

lemma retryFrom_exhausted (refs : List (List Char)) (gen : ℕ → List Char) (g : List Char)
    (h : ∀ i, i < 5 → (ensureNovelty (gen i) refs).ok = false) :
    ∀ n k, 5 - k ≤ n → retryFrom refs gen g k = g := by
  intro n
  induction n with
  | zero =>
    intro k hk
    rw [retryFrom]
    rw [if_neg (by omega)]
  | succ n ih =>
    intro k hk
    rw [retryFrom]
    by_cases hk5 : k < 5
    · rw [if_pos hk5, h k hk5]
      rw [if_neg (by simp)]
      exact ih (k + 1) (by omega)
    · rw [if_neg hk5]

lemma mainSelect_exhausted (refs : List (List Char)) (gen : ℕ → List Char)
    (h : ∀ i, i < 5 → (ensureNovelty (gen i) refs).ok = false) :
    mainSelect refs gen = gen 0 := by
  rw [mainSelect, h 0 (by norm_num)]
  rw [if_neg (by simp)]
  exact retryFrom_exhausted refs gen (gen 0) h 5 1 (by omega)

/-! ### Character-level facts about the tokenizer -/

lemma clean_no_underscore (s : List Char) :
    ∀ d ∈ (s.map Char.toLower).map (fun c => if markerChars.contains c then ' ' else c),
      d ≠ '_' := by
  intro d hd
  obtain ⟨e, _, he⟩ := List.mem_map.mp hd
  by_cases hc : markerChars.contains e
  · rw [if_pos hc] at he
    rw [← he]
    decide
  · rw [if_neg hc] at he
    intro habs
    apply hc
    rw [← he] at habs
    rw [habs]
    decide

lemma mem_clean (s : List Char) :
    ∀ c ∈ clean s, c.isAlphanum = true ∨ c.isWhitespace = true := by
  intro c hc
  obtain ⟨d, hd, hdc⟩ := List.mem_map.mp hc
  by_cases h : isWordChar d || d.isWhitespace
  · rw [if_pos h] at hdc
    subst hdc
    rcases Bool.or_eq_true_iff.mp h with h1 | h2
    · rcases Bool.or_eq_true_iff.mp h1 with ha | hu
      · exact Or.inl ha
      · exact absurd (by simpa using hu) (clean_no_underscore s d hd)
    · exact Or.inr h2
  · rw [if_neg h] at hdc
    subst hdc
    right
    decide

lemma splitWsAux_chars :
    ∀ (l acc : List Char), (∀ c ∈ acc, c.isWhitespace = false) →
      ∀ tok ∈ splitWsAux l acc, ∀ c ∈ tok, (c ∈ l ∨ c ∈ acc) ∧ c.isWhitespace = false := by
  intro l
  induction l with
  | nil =>
    intro acc hacc tok htok c hc
    rw [splitWsAux] at htok
    by_cases he : acc.isEmpty
    · rw [if_pos he] at htok
      exact absurd htok (List.not_mem_nil tok)
    · rw [if_neg he] at htok
      have : tok = acc.reverse := by simpa using htok
      subst this
      have hca : c ∈ acc := by simpa using hc
      exact ⟨Or.inr hca, hacc c hca⟩
  | cons d ds ih =>
    intro acc hacc tok htok c hc
    rw [splitWsAux] at htok
    by_cases hw : d.isWhitespace
    · rw [if_pos hw] at htok
      by_cases he : acc.isEmpty
      · rw [if_pos he] at htok
        have := ih [] (by intro x hx; exact absurd hx (List.not_mem_nil x)) tok htok c hc
        rcases this.1 with h1 | h1
        · exact ⟨Or.inl (List.mem_cons_of_mem d h1), this.2⟩
        · exact absurd h1 (List.not_mem_nil c)
      · rw [if_neg he] at htok
        rcases List.mem_cons.mp htok with h1 | h1
        · subst h1
          have hca : c ∈ acc := by simpa using hc
          exact ⟨Or.inr hca, hacc c hca⟩
        · have := ih [] (by intro x hx; exact absurd hx (List.not_mem_nil x)) tok h1 c hc
          rcases this.1 with h2 | h2
          · exact ⟨Or.inl (List.mem_cons_of_mem d h2), this.2⟩
          · exact absurd h2 (List.not_mem_nil c)
    · rw [if_neg hw] at htok
      have hacc' : ∀ x ∈ d :: acc, x.isWhitespace = false := by
        intro x hx
        rcases List.mem_cons.mp hx with h1 | h1
        · subst h1
          exact Bool.eq_false_iff.mpr hw
        · exact hacc x h1
      have := ih (d :: acc) hacc' tok htok c hc
      rcases this.1 with h1 | h1
      · exact ⟨Or.inl (List.mem_cons_of_mem d h1), this.2⟩
      · rcases List.mem_cons.mp h1 with h2 | h2
        · subst h2
          exact ⟨Or.inl (List.mem_cons_self c ds), this.2⟩
        · exact ⟨Or.inr h2, this.2⟩

lemma splitWs_chars (l : List Char) :
    ∀ tok ∈ splitWs l, ∀ c ∈ tok, c ∈ l ∧ c.isWhitespace = false := by
  intro tok htok c hc
  have := splitWsAux_chars l [] (by intro x hx; exact absurd hx (List.not_mem_nil x))
    tok htok c hc
  rcases this.1 with h1 | h1
  · exact ⟨h1, this.2⟩
  · exact absurd h1 (List.not_mem_nil c)

lemma tokenize_chars (s : List Char) :
    ∀ tok ∈ tokenize s, ∀ c ∈ tok, c.isAlphanum = true := by
  intro tok htok c hc
  have hmem : tok ∈ splitWs (clean s) := List.mem_of_mem_filter htok
  have h1 := splitWs_chars (clean s) tok hmem c hc
  rcases mem_clean s c h1.1 with h2 | h2
  · exact h2
  · rw [h1.2] at h2
    exact absurd h2 (by norm_num)

lemma tokenize_no_stop (s : List Char) :
    ∀ tok ∈ tokenize s, tok ∉ STOP := by
  intro tok htok
  have := List.of_mem_filter htok
  simp only [Bool.and_eq_true, Bool.not_eq_true', decide_eq_false_iff_not] at this
  exact this.2

/-! ### Sample inputs for concrete instantiations -/

/-- A sample reference text (4 tokens, no stop words). -/
def sampleRef : List Char := "alpha beta gamma delta".toList

/-- A sample near-duplicate of `sampleRef` (high trigram overlap). -/
def sampleAlt : List Char := "alpha beta gamma delta epsilon".toList

/-- A sample text with vocabulary disjoint from `sampleRef`. -/
def sampleFresh : List Char := "kappa lambda mu nu".toList

/-- A sample generation stream: the initial candidate is `sampleRef`
verbatim, every regeneration is `sampleAlt`. -/
def sampleGen : ℕ → List Char := fun i => if i = 0 then sampleRef else sampleAlt

/-- Every candidate of `sampleGen` is rejected against `[sampleRef]`. -/
lemma sampleGen_rejected : ∀ i, i < 5 → (ensureNovelty (sampleGen i) [sampleRef]).ok = false := by
  intro i _
  by_cases h0 : i = 0
  · subst h0
    have : sampleGen 0 = sampleRef := by simp [sampleGen]
    rw [this, ensureNovelty_eq]
    decide
  · have : sampleGen i = sampleAlt := by simp [sampleGen, h0]
    rw [this, ensureNovelty_eq]
    decide

/-- A sample token list of length 4. -/
def sampleTokens : List Token := ["aa".toList, "bb".toList, "cc".toList, "dd".toList]

/-- A sample raw text exercising stop words and punctuation. -/
def sampleMarked : List Char := "The AI, & UX!".toList

/-- A sample feed entry. -/
def samplePost : Post :=
  { id := "p1", date := "2025-01-01", title := "t1", html := "h1",
    hashtags := [], sources := [], permalink := "" }

/-- A second sample feed entry. -/
def samplePost2 : Post :=
  { id := "p2", date := "2025-01-02", title := "t2", html := "h2",
    hashtags := [], sources := [], permalink := "" }

/-! ### Claims -/

/-- C1: `ensureNovelty` returns a rejecting verdict iff some reference
exceeds the cosine threshold 0.78 or the trigram-Jaccard threshold 0.32;
a rejecting verdict carries the fixed regeneration hint, rejection happens
at the first failing reference in the given order (the verdict on
`r :: rest` is the fixed rejection as soon as `r` fails, and ignores `r`
otherwise), and when no reference exceeds either threshold the verdict is
accepting with no hint. -/
theorem claim_C1 (cand : List Char) (refs : List (List Char)) :
    ((ensureNovelty cand refs).ok = false ↔ ∃ r ∈ refs, failCond cand r) ∧
    ((ensureNovelty cand refs).ok = false →
      (ensureNovelty cand refs).hint = some noveltyHint) ∧
    ((ensureNovelty cand refs).ok = true → (ensureNovelty cand refs).hint = none) ∧
    (∀ r rest, failCond cand r →
      ensureNovelty cand (r :: rest) = { ok := false, hint := some noveltyHint }) ∧
    (∀ r rest, ¬failCond cand r →
      ensureNovelty cand (r :: rest) = ensureNovelty cand rest) := by
  refine ⟨?_, ?_, ?_, ?_, ?_⟩
  · rw [ensureNovelty_eq]
    by_cases ha : (refs.any (failsB (tokenize (stripHtml cand))
        ((ngrams (tokenize (stripHtml cand)) 3).toFinset))) = true
    · rw [if_pos ha]
      constructor
      · intro _
        obtain ⟨r, hr, hFr⟩ := List.any_eq_true.mp ha
        exact ⟨r, hr, (failsB_iff cand r).mp hFr⟩
      · intro _
        rfl
    · rw [if_neg ha]
      constructor
      · intro habs
        exact absurd habs (by simp)
      · rintro ⟨r, hr, hc⟩
        exact absurd (List.any_eq_true.mpr ⟨r, hr, (failsB_iff cand r).mpr hc⟩) ha
  · intro hok
    rw [ensureNovelty_eq] at hok ⊢
    by_cases ha : (refs.any (failsB (tokenize (stripHtml cand))
        ((ngrams (tokenize (stripHtml cand)) 3).toFinset))) = true
    · rw [if_pos ha]
    · rw [if_neg ha] at hok
      exact absurd hok (by simp)
  · intro hok
    rw [ensureNovelty_eq] at hok ⊢
    by_cases ha : (refs.any (failsB (tokenize (stripHtml cand))
        ((ngrams (tokenize (stripHtml cand)) 3).toFinset))) = true
    · rw [if_pos ha] at hok
      exact absurd hok (by simp)
    · rw [if_neg ha]
  · intro r rest hc
    have hFr := (failsB_iff cand r).mpr hc
    rw [ensureNovelty_eq]
    rw [if_pos (List.any_eq_true.mpr ⟨r, List.mem_cons_self r rest, hFr⟩)]
  · intro r rest hc
    have hFr : failsB (tokenize (stripHtml cand))
        ((ngrams (tokenize (stripHtml cand)) 3).toFinset) r = false :=
      Bool.eq_false_iff.mpr (fun habs => hc ((failsB_iff cand r).mp habs))
    rw [ensureNovelty_eq, ensureNovelty_eq, List.any_cons, hFr]
    simp

/-- Witness for C1: a verbatim duplicate is rejected with the fixed hint,
and a disjoint-vocabulary candidate is accepted with no hint. -/
theorem claim_C1_witness :
    (ensureNovelty sampleRef [sampleRef]).hint = some noveltyHint ∧
    (ensureNovelty sampleFresh [sampleRef]).hint = none :=
  ⟨(claim_C1 sampleRef [sampleRef]).2.1 (by rw [ensureNovelty_eq]; decide),
   (claim_C1 sampleFresh [sampleRef]).2.2.1 (by rw [ensureNovelty_eq]; decide)⟩

/-- C2 (amended): if all candidates of the first 5 generation attempts are
rejected by the guard, the retry loop terminates and the FIRST-generated
candidate (`generated`, the attempt-0 text) is the one written
unconditionally — not the last-generated one. -/
theorem claim_C2 (refs : List (List Char)) (gen : ℕ → List Char)
    (h : ∀ i, i < 5 → (ensureNovelty (gen i) refs).ok = false) :
    mainSelect refs gen = gen 0 :=
  mainSelect_exhausted refs gen h

/-- Witness for C2 (amended): a concrete all-rejected run writes the
initial candidate. -/
theorem claim_C2_witness : mainSelect [sampleRef] sampleGen = sampleGen 0 :=
  claim_C2 [sampleRef] sampleGen sampleGen_rejected

/-- Counterexample to C2 as stated: in a concrete run where all 5
generation attempts are rejected, the written candidate is the first one,
which differs from the last-generated candidate (`sampleGen 4`). -/
theorem claim_C2_counterexample :
    (∀ i, i < 5 → (ensureNovelty (sampleGen i) [sampleRef]).ok = false) ∧
    mainSelect [sampleRef] sampleGen ≠ sampleGen 4 := by
  refine ⟨sampleGen_rejected, ?_⟩
  rw [mainSelect_exhausted [sampleRef] sampleGen sampleGen_rejected]
  decide

/-- C3 (amended): a candidate equal to one of the references verbatim is
rejected with the fixed hint provided its token sequence is non-empty;
cosine self-similarity is then 1.0, exceeding the 0.78 threshold. (For a
candidate whose tokenization is empty — e.g. the empty text — both scores
are 0 and the verbatim duplicate is accepted instead.) -/
theorem claim_C3 (cand : List Char) (refs : List (List Char)) (hmem : cand ∈ refs)
    (hne : tokenize (stripHtml cand) ≠ []) :
    ensureNovelty cand refs = { ok := false, hint := some noveltyHint } ∧
    cosineSim (tokenize (stripHtml cand)) (tokenize (stripHtml cand)) = 1 := by
  have hcos : cosineSim (tokenize (stripHtml cand)) (tokenize (stripHtml cand)) = 1 :=
    cosineSim_self _ hne
  refine ⟨?_, hcos⟩
  have hany : (refs.any (failsB (tokenize (stripHtml cand))
      ((ngrams (tokenize (stripHtml cand)) 3).toFinset))) = true :=
    List.any_eq_true.mpr
      ⟨cand, hmem, (failsB_iff cand cand).mpr (Or.inl (by rw [hcos]; norm_num))⟩
  rw [ensureNovelty_eq, if_pos hany]

/-- Witness for C3 (amended): the concrete verbatim duplicate `sampleRef`
is rejected with the fixed hint and has cosine self-similarity 1. -/
theorem claim_C3_witness :
    ensureNovelty sampleRef [sampleRef] = { ok := false, hint := some noveltyHint } ∧
    cosineSim (tokenize (stripHtml sampleRef)) (tokenize (stripHtml sampleRef)) = 1 :=
  claim_C3 sampleRef [sampleRef] (by simp) (by decide)

/-- Counterexample to C3 as stated: the empty candidate equals the empty
reference verbatim but is accepted (both similarity scores are 0, not 1). -/
theorem claim_C3_counterexample :
    ([] : List Char) ∈ [([] : List Char)] ∧
    ensureNovelty [] [[]] = { ok := true, hint := none } :=
  ⟨by simp, by rw [ensureNovelty_eq]; decide⟩

/-- C4: both similarity scores always lie in the interval [0, 1]. -/
theorem claim_C4 :
    (∀ a b : List Token, 0 ≤ cosineSim a b ∧ cosineSim a b ≤ 1) ∧
    (∀ aSet bSet : Finset (List Char), 0 ≤ jaccard aSet bSet ∧ jaccard aSet bSet ≤ 1) :=
  ⟨fun a b => ⟨cosineSim_nonneg a b, cosineSim_le_one a b⟩,
   fun aSet bSet => ⟨jaccard_nonneg aSet bSet, jaccard_le_one aSet bSet⟩⟩

/-- C5: the similarity computations are total on empty input: an empty
token sequence on either side yields cosine 0 (denominator floored to 1),
and the Jaccard score of two empty trigram sets is 0. -/
theorem claim_C5 :
    (∀ a b : List Token, a = [] ∨ b = [] → cosineSim a b = 0) ∧
    jaccard (∅ : Finset (List Char)) ∅ = 0 := by
  constructor
  · rintro a b (rfl | rfl)
    · exact cosineSim_zero_left b
    · exact cosineSim_zero_right a
  · exact jaccard_empty

/-- Witness for C5: cosine of the empty sequence against a non-empty one
is 0, and Jaccard of two empty sets is 0. -/
theorem claim_C5_witness :
    cosineSim [] ["ai".toList] = 0 ∧ jaccard (∅ : Finset (List Char)) ∅ = 0 :=
  ⟨claim_C5.1 [] ["ai".toList] (Or.inl rfl), claim_C5.2⟩

/-- C6: permuting the reference list changes neither the accept/reject
outcome of `ensureNovelty` nor the returned hint (the whole verdict is
permutation-invariant, since every failing reference yields the same
fixed hint). -/
theorem claim_C6 (cand : List Char) (refs refs' : List (List Char)) (hp : refs.Perm refs') :
    ensureNovelty cand refs = ensureNovelty cand refs' := by
  rw [ensureNovelty_eq, ensureNovelty_eq, any_perm hp]

/-- Witness for C6: swapping two concrete references leaves the verdict
unchanged. -/
theorem claim_C6_witness :
    ensureNovelty sampleFresh [sampleRef, sampleAlt] =
      ensureNovelty sampleFresh [sampleAlt, sampleRef] :=
  claim_C6 sampleFresh _ _ (List.Perm.swap sampleAlt sampleRef [])

/-- C7: self-similarity is maximal: cosine of a non-empty token sequence
with itself is 1.0, and Jaccard of a non-empty trigram set with itself
is 1.0. -/
theorem claim_C7 :
    (∀ t : List Token, t ≠ [] → cosineSim t t = 1) ∧
    (∀ s : Finset (List Char), s ≠ ∅ → jaccard s s = 1) :=
  ⟨fun t ht => cosineSim_self t ht, fun s hs => jaccard_self s hs⟩

/-- Witness for C7 at concrete non-empty inputs. -/
theorem claim_C7_witness :
    cosineSim ["ai".toList] ["ai".toList] = 1 ∧
    jaccard {"ai".toList} {"ai".toList} = 1 :=
  ⟨claim_C7.1 ["ai".toList] (by decide), claim_C7.2 {"ai".toList} (by decide)⟩

/-- C8: `ngrams(tokens, 3)` has exactly `max(0, L-2)` entries (`L - 2` in
truncated natural subtraction), each entry being the 3 consecutive tokens
starting at its index joined by single spaces, and the deduplicated set is
never larger than `L - 2`. -/
theorem claim_C8 (t : List Token) :
    (ngrams t 3).length = t.length - 2 ∧
    (∀ i, i < (ngrams t 3).length →
      (ngrams t 3)[i]? = some (joinSpace ((t.drop i).take 3)) ∧
      ((t.drop i).take 3).length = 3) ∧
    (ngrams t 3).toFinset.card ≤ t.length - 2 := by
  have hlen : (ngrams t 3).length = t.length - 2 := by
    rw [ngrams, List.length_map, List.length_range]
    omega
  refine ⟨hlen, ?_, ?_⟩
  · intro i hi
    have hi' : i < t.length - 2 := hlen ▸ hi
    constructor
    · rw [ngrams, List.getElem?_map, List.getElem?_range (by omega)]
      rfl
    · rw [List.length_take, List.length_drop]
      omega
  · calc (ngrams t 3).toFinset.card ≤ (ngrams t 3).length := List.toFinset_card_le _
      _ = t.length - 2 := hlen

/-- Witness for C8 at a concrete 4-token list. -/
theorem claim_C8_witness :
    (ngrams sampleTokens 3).length = sampleTokens.length - 2 ∧
    (ngrams sampleTokens 3)[1]? = some (joinSpace ((sampleTokens.drop 1).take 3)) :=
  ⟨(claim_C8 sampleTokens).1, ((claim_C8 sampleTokens).2.1 1 (by decide)).1⟩

/-- C9: `tokenize` is deterministic and total, and its output never
contains a stop word nor any punctuation character (every character of
every output token is alphanumeric). -/
theorem claim_C9 (s : List Char) :
    tokenize s = tokenize s ∧
    ∀ tok ∈ tokenize s, tok ∉ STOP ∧ ∀ c ∈ tok, c.isAlphanum = true :=
  ⟨rfl, fun tok htok =>
    ⟨tokenize_no_stop s tok htok, fun c hc => tokenize_chars s tok htok c hc⟩⟩

/-- Witness for C9: the token `ai` of a concrete marked-up text is not a
stop word and is purely alphanumeric. -/
theorem claim_C9_witness :
    "ai".toList ∉ STOP ∧ ∀ c ∈ "ai".toList, c.isAlphanum = true :=
  (claim_C9 sampleMarked).2 "ai".toList (by decide)

/-- C10: `writePost` prepends the new entry, keeps the previous posts in
order (each previous post `i` reappears at position `i+1` as long as it is
among the 364 retained), and truncates the feed to at most 365 entries. -/
theorem claim_C10 (posts : List Post) (entry : Post) :
    writePost posts entry = entry :: posts.take 364 ∧
    (writePost posts entry).length ≤ 365 ∧
    ∀ i, i < 364 → (writePost posts entry)[i + 1]? = posts[i]? := by
  have h1 : writePost posts entry = entry :: posts.take 364 := by
    rw [writePost]
    rfl
  refine ⟨h1, ?_, ?_⟩
  · rw [writePost]
    exact List.length_take_le 365 (entry :: posts)
  · intro i hi
    rw [h1, List.getElem?_cons_succ, List.getElem?_take, if_pos hi]

/-- Witness for C10 at a concrete one-entry feed. -/
theorem claim_C10_witness :
    writePost [samplePost2] samplePost = samplePost :: [samplePost2].take 364 ∧
    (writePost [samplePost2] samplePost).length ≤ 365 ∧
    (writePost [samplePost2] samplePost)[1]? = [samplePost2][0]? :=
  ⟨(claim_C10 [samplePost2] samplePost).1, (claim_C10 [samplePost2] samplePost).2.1,
   (claim_C10 [samplePost2] samplePost).2.2 0 (by norm_num)⟩

end SocialOpen
